import Mathlib

set_option maxRecDepth 20000

/-! Shallow embedding of the macro substitution engine of
`public/scripts/macros.js`. External collaborators (string-hash utility,
seeded RNG, dice library, time formatting, DOM state, and the opaque
instruct/variable passes) are modelled as explicit parameters, following the
interface contracts of the specification. Strings are modelled as lists of
characters; all scanners are written with explicit fuel so that they are
structurally recursive and evaluate inside the kernel. -/

/-- JavaScript runtime values, as far as the macro engine inspects them:
strings, functions (carrying their source text, which is observable through
JavaScript string coercion), `undefined`, `null`, integers, and the `NaN`
produced by arithmetic on `undefined`. -/
inductive JSVal where
  | vstr (s : String)
  | vfn (f : String → String) (src : String)
  | vundef
  | vnull
  | vnum (n : Int)
  | vnan

/-- JavaScript `String(v)` coercion on the modelled values. For a function it
returns the function's source text (`Function.prototype.toString`). -/
def jsToString : JSVal → String
  | .vstr s => s
  | .vfn _ src => src
  | .vundef => "undefined"
  | .vnull => "null"
  | .vnum n => toString n
  | .vnan => "NaN"

/-- A JavaScript object with string keys, modelled as an insertion-ordered
association list with unique keys (`for … in` iterates in this order). -/
abbrev EnvObject := List (String × JSVal)

/-- Property read `obj[k]`: the value at key `k`, if present. -/
def objGet : EnvObject → String → Option JSVal
  | [], _ => none
  | (k0, v0) :: rest, k => if k0 = k then some v0 else objGet rest k

/-- Property write `obj[k] = v`: updates the entry in place if the key exists
(keeping its position in insertion order), else appends it. -/
def objSet : EnvObject → String → JSVal → EnvObject
  | [], k, v => [(k, v)]
  | (k0, v0) :: rest, k, v =>
    if k0 = k then (k0, v) :: rest else (k0, v0) :: objSet rest k v

/-- `Map.delete(k)`: removes the entry with key `k` if present. -/
def objDel : EnvObject → String → EnvObject
  | [], _ => []
  | (k0, v0) :: rest, k => if k0 = k then rest else (k0, v0) :: objDel rest k

/-- Whitespace, as JavaScript `trim` and the regex class count it. -/
def isJsSpace (c : Char) : Bool := c.isWhitespace

/-- Characters of a string with leading and trailing whitespace removed. -/
def trimChars (s : List Char) : List Char :=
  ((s.dropWhile isJsSpace).reverse.dropWhile isJsSpace).reverse

/-- JavaScript `s.trim()`. -/
def strTrim (s : String) : String := String.mk (trimChars s.data)

/-- Whether the characters start with the opening placeholder braces. -/
def startsWithBraces : List Char → Bool
  | '{' :: '{' :: _ => true
  | _ => false

/-- Whether the characters end with the closing placeholder braces. -/
def endsWithBraces (s : List Char) : Bool :=
  match s.reverse with
  | '}' :: '}' :: _ => true
  | _ => false

/-- Whether `pat` is a prefix of `s`. -/
def listIsPrefix : List Char → List Char → Bool
  | [], _ => true
  | _ :: _, [] => false
  | p :: ps, c :: cs => p == c && listIsPrefix ps cs

/-- JavaScript `s.includes(pat)`: whether `pat` occurs in `s`. -/
def containsSeq (pat : List Char) : List Char → Bool
  | [] => listIsPrefix pat []
  | c :: rest => listIsPrefix pat (c :: rest) || containsSeq pat rest

/-- `MacrosParser.sanitizeMacroValue` (macros.js 112-140) restricted to the
value shapes the model carries: strings pass through, `null` and `undefined`
become empty, a function becomes empty with a warning, and a number falls to
its default string coercion. -/
def sanitizeMacroValue : JSVal → String
  | .vstr s => s
  | .vnull => ""
  | .vundef => ""
  | .vfn _ _ => ""
  | .vnum n => toString n
  | .vnan => "NaN"

/-- `MacrosParser.registerMacro` (macros.js 34-60): the key must be a string
that trims to a non-empty form not starting with `{{` and not ending with
`}}`; non-string, non-function values are sanitized to strings before being
stored. The registry map is passed and returned explicitly. -/
def registerMacro (macros : EnvObject) (key value : JSVal) :
    Except String EnvObject :=
  match key with
  | .vstr s =>
    let k := strTrim s
    if k = "" then
      .error "Macro key must not be empty or whitespace only"
    else if startsWithBraces k.data || endsWithBraces k.data then
      .error "Macro key must not include the surrounding braces"
    else
      let v := match value with
        | .vstr t => JSVal.vstr t
        | .vfn f src => JSVal.vfn f src
        | other => JSVal.vstr (sanitizeMacroValue other)
      .ok (objSet macros k v)
  | _ => .error "Macro key must be a string"

/-- `MacrosParser.unregisterMacro` (macros.js 67-84): the key must be a string
that trims to a non-empty form; the entry is then deleted, with only a console
warning (no failure) when it was absent. There is no brace check. -/
def unregisterMacro (macros : EnvObject) (key : JSVal) :
    Except String EnvObject :=
  match key with
  | .vstr s =>
    let k := strTrim s
    if k = "" then
      .error "Macro key must not be empty or whitespace only"
    else
      .ok (objDel macros k)
  | _ => .error "Macro key must be a string"

/-- `MacrosParser.populateEnv` (macros.js 91-105): every registered entry is
set into the environment object, unconditionally overwriting any existing key
of the same name. -/
def populateEnv (env : EnvObject) (macros : EnvObject) : EnvObject :=
  macros.foldl (fun e kv => objSet e kv.1 kv.2) env

/-- The exact key-validity test performed by `registerMacro`. -/
def validRegisterKey : JSVal → Bool
  | .vstr s =>
    let k := strTrim s
    !(k = "") && !(startsWithBraces k.data) && !(endsWithBraces k.data)
  | _ => false

/-- The exact key-validity test performed by `unregisterMacro`. -/
def validUnregisterKey : JSVal → Bool
  | .vstr s => !(strTrim s = "")
  | _ => false

/-- Whether an `Except` result is a success. -/
def exceptOk {ε α : Type} : Except ε α → Bool
  | .ok _ => true
  | .error _ => false

/-- Case-insensitive prefix test, as the regex `i` flag compares literals. -/
def ciPrefix : List Char → List Char → Bool
  | [], _ => true
  | _ :: _, [] => false
  | p :: ps, c :: cs => (p.toLower == c.toLower) && ciPrefix ps cs

/-- One left-to-right scan of `String.prototype.replace` with a global regex:
at each position the matcher is tried (receiving the running match counter and
the offset, as the replacer callback does); on a match the replacement text is
emitted and the scan resumes after the matched span, otherwise the character
is kept and the scan moves on by one. Fuel makes the recursion structural. -/
def scanReplaceAux (matchFn : Nat → Nat → List Char → Option (String × Nat)) :
    Nat → Nat → Nat → List Char → List Char
  | 0, _, _, s => s
  | _ + 1, _, _, [] => []
  | fuel + 1, k, pos, c :: rest =>
    match matchFn k pos (c :: rest) with
    | some (rep, len) =>
      rep.data ++ scanReplaceAux matchFn fuel (k + 1) (pos + len) (rest.drop (len - 1))
    | none => c :: scanReplaceAux matchFn fuel k (pos + 1) rest

/-- `input.replace(pattern, replacer)` for a global pattern, via a matcher. -/
def scanReplace (matchFn : Nat → Nat → List Char → Option (String × Nat))
    (s : String) : String :=
  String.mk (scanReplaceAux matchFn (s.data.length + 1) 0 0 s.data)

/-- The matches a global-regex scan visits, with their offsets, without
rewriting: used to report the seed strings the content-seeded pick builds. -/
def scanCollectAux {α : Type} (matchFn : List Char → Option (α × Nat)) :
    Nat → Nat → List Char → List (Nat × α)
  | 0, _, _ => []
  | _ + 1, _, [] => []
  | fuel + 1, pos, c :: rest =>
    match matchFn (c :: rest) with
    | some (a, len) => (pos, a) :: scanCollectAux matchFn fuel (pos + len) (rest.drop (len - 1))
    | none => scanCollectAux matchFn fuel (pos + 1) rest

/-- All matches of a matcher over a string, with their offsets. -/
def scanCollect {α : Type} (matchFn : List Char → Option (α × Nat)) (s : String) :
    List (Nat × α) :=
  scanCollectAux matchFn (s.data.length + 1) 0 s.data

/-- Matcher for a fixed case-insensitive pattern with a fixed replacement. -/
def ciFixedMatch (pat : List Char) (rep : String) :
    Nat → Nat → List Char → Option (String × Nat) :=
  fun _ _ s => if ciPrefix pat s then some (rep, pat.length) else none

/-- The `([^}]+)}}` tail shared by the list and roll directives: a greedy
non-empty run of characters other than a closing brace, then the two closing
braces. Returns the captured run and its length including the braces. -/
def matchCapBraces (v : List Char) : Option (String × Nat) :=
  let run := v.takeWhile (fun c => c != '}')
  if run.isEmpty then none
  else if listIsPrefix ['}', '}'] (v.drop run.length) then
    some (String.mk run, run.length + 2)
  else none

/-- The `::?([^}]+)}}` tail of a list directive after its first colon: the
optional second colon is taken greedily, backtracking into the capture when
the greedy path cannot complete. -/
def matchAfterColon (u : List Char) (consumed : Nat) : Option (String × Nat) :=
  match u with
  | ':' :: u1 =>
    match matchCapBraces u1 with
    | some (cap, n) => some (cap, consumed + 1 + n)
    | none => (matchCapBraces u).map (fun p => (p.1, consumed + p.2))
  | _ => (matchCapBraces u).map (fun p => (p.1, consumed + p.2))

/-- Matcher for a list directive `{{kw\s?::?([^}]+)}}` (case-insensitive), as
used by the random and pick patterns (macros.js 321, 341). Returns the
captured list string and the whole match length. -/
def matchListDirective (kw : List Char) (s : List Char) : Option (String × Nat) :=
  if ciPrefix ('{' :: '{' :: kw) s then
    let base := 2 + kw.length
    match s.drop base with
    | ':' :: u => matchAfterColon u (base + 1)
    | c :: ':' :: u => if isJsSpace c then matchAfterColon u (base + 2) else none
    | _ => none
  else none

/-- Matcher for the roll directive `{{roll[ : ]([^}]+)}}` (macros.js 371):
after the keyword exactly one character that is a space or a colon. -/
def matchRollDirective (s : List Char) : Option (String × Nat) :=
  if ciPrefix ('{' :: '{' :: "roll".data) s then
    match s.drop 6 with
    | c :: u =>
      if c == ' ' || c == ':' then
        (matchCapBraces u).map (fun p => (p.1, 7 + p.2))
      else none
    | [] => none
  else none

/-- A lazy capture `(...*?)` running up to the first occurrence of the
terminator, optionally refusing newline characters (the regex dot). Returns
the captured characters and the consumed length including the terminator. -/
def lazyUntilPat (termin : List Char) (allowNl : Bool) :
    Nat → List Char → Option (List Char × Nat)
  | 0, _ => none
  | fuel + 1, v =>
    if listIsPrefix termin v then some ([], termin.length)
    else
      match v with
      | [] => none
      | c :: rest =>
        if !allowNl && (c == '\n' || c == '\r') then none
        else (lazyUntilPat termin allowNl fuel rest).map (fun p => (c :: p.1, p.2 + 1))

/-- Matcher for `{{reverse:(.+?)}}` (macros.js 471): a lazy non-empty capture
of non-newline characters. -/
def matchReverseDirective (s : List Char) : Option (String × Nat) :=
  if ciPrefix ('{' :: '{' :: "reverse:".data) s then
    match s.drop 10 with
    | c :: u =>
      if c == '\n' || c == '\r' then none
      else
        (lazyUntilPat ['}', '}'] false (u.length + 1) u).map
          (fun p => (String.mk (c :: p.1), 11 + p.2))
    | [] => none
  else none

/-- The reverse pass replaces the capture by its reversed characters, escaped. -/
def matchReverseFn (esc : String → String) :
    Nat → Nat → List Char → Option (String × Nat) :=
  fun _ _ s =>
    (matchReverseDirective s).map (fun p => (esc (String.mk p.1.data.reverse), p.2))

/-- Matcher for the comment span `\{\{\/\/([\s\S]*?)\}\}` (macros.js 473): a
lazy, possibly empty capture that may span newlines; replaced by nothing. -/
def matchCommentFn : Nat → Nat → List Char → Option (String × Nat) :=
  fun _ _ s =>
    if listIsPrefix ['{', '{', '/', '/'] s then
      (lazyUntilPat ['}', '}'] true ((s.drop 4).length + 1) (s.drop 4)).map
        (fun p => ("", 4 + p.2))
    else none

/-- The length of a maximal `(?:\r?\n)*` run. -/
def newlineRun : List Char → Nat
  | '\r' :: '\n' :: rest => 2 + newlineRun rest
  | '\n' :: rest => 1 + newlineRun rest
  | _ => 0

/-- Matcher for `(?:\r?\n)*{{trim}}(?:\r?\n)*` (macros.js 444): the marker and
its surrounding line breaks are removed. -/
def matchTrimFn : Nat → Nat → List Char → Option (String × Nat) :=
  fun _ _ s =>
    let a := newlineRun s
    let t := s.drop a
    if ciPrefix "{{trim}}".data t then
      some ("", a + 8 + newlineRun (t.drop 8))
    else none

/-- Matcher for `{{datetimeformat +([^}]*)}}` (macros.js 481): one or more
literal spaces, then a possibly empty capture up to the closing braces. -/
def matchDtFormatFn (esc : String → String) (fmt : String → String) :
    Nat → Nat → List Char → Option (String × Nat) :=
  fun _ _ s =>
    if ciPrefix ('{' :: '{' :: "datetimeformat".data) s then
      let t := s.drop 16
      let sp := t.takeWhile (fun c => c == ' ')
      if sp.isEmpty then none
      else
        let u := t.drop sp.length
        let cap := u.takeWhile (fun c => c != '}')
        if listIsPrefix ['}', '}'] (u.drop cap.length) then
          some (esc (fmt (String.mk cap)), 16 + sp.length + cap.length + 2)
        else none
    else none

/-- The numeric value of a digit run. -/
def natOfDigits (ds : List Char) : Nat :=
  ds.foldl (fun a c => a * 10 + (c.toNat - '0'.toNat)) 0

/-- Matcher for `{{time_UTC([-+]\d+)}}` (macros.js 485): a signed integer
offset parsed with `parseInt` and passed to the formatting collaborator. -/
def matchTimeUTCFn (esc : String → String) (timeUTC : Int → String) :
    Nat → Nat → List Char → Option (String × Nat) :=
  fun _ _ s =>
    if ciPrefix ('{' :: '{' :: "time_utc".data) s then
      match s.drop 10 with
      | c :: u =>
        if c == '+' || c == '-' then
          let ds := u.takeWhile (fun d => d.isDigit)
          if ds.isEmpty then none
          else if listIsPrefix ['}', '}'] (u.drop ds.length) then
            let off : Int :=
              if c == '-' then -(natOfDigits ds : Int) else (natOfDigits ds : Int)
            some (esc (timeUTC off), 13 + ds.length)
          else none
        else none
      | [] => none
    else none

/-- The greedy `(.*)"}}` tail of the banned-words pattern: the longest run of
non-newline characters followed by a quote and the closing braces. -/
def greedyCapQuote : Nat → List Char → Option (List Char × Nat)
  | 0, _ => none
  | fuel + 1, v =>
    let ext : Option (List Char × Nat) :=
      match v with
      | c :: rest =>
        if c == '\n' || c == '\r' then none
        else (greedyCapQuote fuel rest).map (fun p => (c :: p.1, p.2 + 1))
      | [] => none
    match ext with
    | some r => some r
    | none => if listIsPrefix ['"', '}', '}'] v then some ([], 3) else none

/-- Matcher for `{{banned "(.*)"}}` (macros.js 272); occurrences are removed
from the text (the side effect on the backend ban list is not text-visible). -/
def matchBannedFn : Nat → Nat → List Char → Option (String × Nat) :=
  fun _ _ s =>
    if ciPrefix ('{' :: '{' :: "banned \"".data) s then
      (greedyCapQuote ((s.drop 10).length + 1) (s.drop 10)).map
        (fun p => ("", 10 + p.2))
    else none

/-- `bannedWordsReplace` (macros.js 267-286): empty input short-circuits to
empty; otherwise all banned-word directives are replaced by nothing, with no
escaping. -/
def bannedWordsReplace (inText : String) : String :=
  if inText = "" then "" else scanReplace matchBannedFn inText

/-- The `(.*?)::(.*?)}}` body of the time-difference pattern, with regex
backtracking: the first capture extends lazily past a double colon whenever
the second capture cannot reach the closing braces. -/
def matchTimeDiffBody : Nat → List Char → Option (String × String × Nat)
  | 0, _ => none
  | fuel + 1, v =>
    let here : Option (String × String × Nat) :=
      if listIsPrefix [':', ':'] v then
        (lazyUntilPat ['}', '}'] false ((v.drop 2).length + 1) (v.drop 2)).map
          (fun p => ("", String.mk p.1, 2 + p.2))
      else none
    match here with
    | some r => some r
    | none =>
      match v with
      | [] => none
      | c :: rest =>
        if c == '\n' || c == '\r' then none
        else
          (matchTimeDiffBody fuel rest).map
            (fun r => (String.mk (c :: r.1.data), r.2.1, r.2.2 + 1))

/-- `timeDiffReplace` (macros.js 399-411): `{{timeDiff::a::b}}` is replaced by
the humanized difference of the two timestamps, escaped. The moment
calculation is the external collaborator `humanize2`. -/
def timeDiffReplace (humanize2 : String → String → String) (input : String)
    (varEscape : String → String) : String :=
  scanReplace
    (fun _ _ s =>
      if ciPrefix ('{' :: '{' :: "timediff::".data) s then
        (matchTimeDiffBody ((s.drop 12).length + 1) (s.drop 12)).map
          (fun r => (varEscape (humanize2 r.1 r.2.1), 12 + r.2.2))
      else none)
    input

/-- JavaScript `s.split(sep)` for the single-character separators. Splitting
never yields an empty array: even the empty string yields one empty item. -/
def splitChar (sep : Char) : List Char → List (List Char)
  | [] => [[]]
  | c :: rest =>
    if c == sep then [] :: splitChar sep rest
    else
      match splitChar sep rest with
      | [] => [[c]]
      | t :: ts => (c :: t) :: ts

/-- JavaScript `s.split('::')`: tokens between non-overlapping double colons. -/
def split2colon : List Char → List (List Char)
  | [] => [[]]
  | [c] => [[c]]
  | c1 :: c2 :: rest =>
    if c1 == ':' && c2 == ':' then [] :: split2colon rest
    else
      match split2colon (c2 :: rest) with
      | [] => [[c1]]
      | t :: ts => (c1 :: t) :: ts

/-- Literal (case-sensitive) replace-all, as `replace(/\\,/g, …)` and the
comma-placeholder restoration use it. -/
def replaceAllSeq (pat rep : List Char) : Nat → List Char → List Char
  | 0, s => s
  | _ + 1, [] => []
  | fuel + 1, c :: rest =>
    if listIsPrefix pat (c :: rest) then
      rep ++ replaceAllSeq pat rep fuel ((c :: rest).drop pat.length)
    else c :: replaceAllSeq pat rep fuel rest

/-- The escaped-comma placeholder of macros.js 328/353. -/
def commaPlaceholder : List Char := "##�COMMA�##".data

/-- The shared list parsing of the random and pick replacers (macros.js
325-328, 350-353): split on double colons when present (no trimming), else
replace escaped commas by a placeholder, split on commas, trim each item and
restore the escaped commas. -/
def parseList (listString : String) : List String :=
  let cs := listString.data
  if containsSeq [':', ':'] cs then
    (split2colon cs).map String.mk
  else
    (splitChar ',' (replaceAllSeq ['\\', ','] commaPlaceholder (cs.length + 1) cs)).map
      (fun item =>
        String.mk (replaceAllSeq commaPlaceholder [','] (item.length + 1) (trimChars item)))

/-- A float in `[0,1)` as the seeded-RNG collaborator returns it (spec §6),
modelled as a non-negative rational numerator/denominator pair. -/
structure RngFloat where
  num : Nat
  den : Nat

/-- `Math.floor(rng() * list.length)` for such a value. -/
def ratFloorIdx (r : RngFloat) (n : Nat) : Nat := r.num * n / r.den

/-- JavaScript `list[i]` on a string array, coerced: out-of-range indexing
yields `undefined`, whose string form is "undefined". -/
def jsIndexStr (l : List String) (i : Nat) : String :=
  (l.get? i).getD "undefined"

/-- `randomReplace` (macros.js 320-338). The entropy-seeded generator draw of
each match is the external collaborator `entropy` (one fresh generator per
match, called once). The placeholder parameter is a raw JavaScript value: the
pipeline call site passes the escape function in this position. -/
def randomReplace (entropy : Nat → RngFloat) (input : String)
    (emptyListPlaceholder : JSVal) (varEscape : String → String) : String :=
  scanReplace
    (fun k _ s =>
      (matchListDirective "random".data s).map
        (fun m =>
          (let list := parseList m.1
           if list.isEmpty then jsToString emptyListPlaceholder
           else varEscape (jsIndexStr list (ratFloorIdx (entropy k) list.length)),
           m.2)))
    input

/-- The combined seed string of a content-seeded pick (macros.js 361):
`chatIdHash + "-" + rawContentHash + "-" + offset`. -/
def seedString (chatIdHash rawContentHash : Int) (offset : Nat) : String :=
  toString chatIdHash ++ "-" ++ toString rawContentHash ++ "-" ++ toString offset

/-- The scan of `pickReplace` (macros.js 340-368) factored over its external
inputs: the string hash, the seeded generator, and the chat-id hash. Each
match is replaced by the list item selected by a generator seeded from the
chat-id hash, the hash of `rawContent`, and the match offset in `input`. -/
def pickCore (stringHash : String → Int) (seededRng : Int → RngFloat)
    (chatIdHash : Int) (input rawContent : String) (emptyListPlaceholder : JSVal)
    (varEscape : String → String) : String :=
  let rawContentHash := stringHash rawContent
  scanReplace
    (fun _ pos s =>
      (matchListDirective "pick".data s).map
        (fun m =>
          (let list := parseList m.1
           if list.isEmpty then jsToString emptyListPlaceholder
           else
             let combinedSeedString := seedString chatIdHash rawContentHash pos
             let finalSeed := stringHash combinedSeedString
             varEscape (jsIndexStr list (ratFloorIdx (seededRng finalSeed) list.length)),
           m.2)))
    input

/-- The offsets at which the pick pattern matches in a given input string. -/
def pickMatchOffsets (input : String) : List Nat :=
  (scanCollect (matchListDirective "pick".data) input).map (fun p => p.1)

/-- The combined seed strings `pickCore` builds for a given input, in match
order: one per pick directive, at the match's offset in `input`. -/
def pickSeeds (stringHash : String → Int) (chatIdHash : Int)
    (rawContent input : String) : List String :=
  (scanCollect (matchListDirective "pick".data) input).map
    (fun p => seedString chatIdHash (stringHash rawContent) p.1)

/-- Modelled from the spec: `isDigitsOnly` from the utilities module (not part
of the staged sources); §4.3 "If the argument is purely digits". -/
def isDigitsOnly (s : String) : Bool :=
  !(s.data.isEmpty) && s.data.all (fun c => c.isDigit)

/-- Modelled from the spec: the dice collaborator's notation grammar (§6
`validate(formula) -> boolean`, `roll(formula) -> {total}`; §4.3): an
optional positive dice count, the letter d, a positive number of sides, and
an optional signed integer modifier. -/
def parseDiceFormula (s : String) : Option (Nat × Nat × Int) :=
  let cs := s.data
  let cnt := cs.takeWhile (fun c => c.isDigit)
  match cs.drop cnt.length with
  | 'd' :: rest =>
    let sd := rest.takeWhile (fun c => c.isDigit)
    if sd.isEmpty then none
    else
      let sides := natOfDigits sd
      let count := if cnt.isEmpty then 1 else natOfDigits cnt
      let modifier : Option Int :=
        match rest.drop sd.length with
        | [] => some 0
        | '+' :: ds =>
          if !ds.isEmpty && ds.all (fun c => c.isDigit) then
            some (natOfDigits ds : Int)
          else none
        | '-' :: ds =>
          if !ds.isEmpty && ds.all (fun c => c.isDigit) then
            some (-(natOfDigits ds : Int))
          else none
        | _ => none
      match modifier with
      | some m => if 1 ≤ count && 1 ≤ sides then some (count, sides, m) else none
      | none => none
  | _ => none

/-- Modelled from the spec: `droll.validate`. -/
def drollValidate (s : String) : Bool := (parseDiceFormula s).isSome

/-- Modelled from the spec: `droll.roll(formula).total`, with the individual
die draws supplied by the external stream `dice`. -/
def drollRollTotal (dice : Nat → Nat) (s : String) : Int :=
  match parseDiceFormula s with
  | some (count, _, m) => ((((List.range count).map dice).sum : Nat) : Int) + m
  | none => 0

/-- `diceRollReplace` (macros.js 370-390): the captured formula is trimmed, a
digits-only formula is normalized to a single die (`1d` prefix), an invalid
formula is replaced by the string coercion of the placeholder value, and a
valid one by the escaped decimal total. `dice k` is the die-draw stream of
the k-th match. -/
def diceRollReplace (dice : Nat → Nat → Nat) (input : String)
    (invalidRollPlaceholder : JSVal) (varEscape : String → String) : String :=
  scanReplace
    (fun k _ s =>
      (matchRollDirective s).map
        (fun m =>
          (let formula0 := strTrim m.1
           let formula := if isDigitsOnly formula0 then "1d" ++ formula0 else formula0
           if !(drollValidate formula) then jsToString invalidRollPlaceholder
           else varEscape (toString (drollRollTotal (dice k) formula)),
           m.2)))
    input

/-- A chat message record, carrying the fields the engine reads. `swipe_id`
is kept as a raw JavaScript value because the engine distinguishes a missing
field (`undefined`) from a stored `null`. -/
structure ChatMessage where
  mes : String := ""
  is_user : Bool := false
  is_system : Bool := false
  send_date : Option String := none
  swipes : Option (List String) := none
  swipe_id : JSVal := JSVal.vundef

/-- JavaScript `x >= n` for the value shapes a swipe id takes: a number
compares numerically, `undefined` (NaN) compares false, `null` coerces to 0. -/
def jsGE (x : JSVal) (n : Nat) : Bool :=
  match x with
  | .vnum m => decide ((n : Int) ≤ m)
  | .vnull => decide (n = 0)
  | _ => false

/-- JavaScript `x + 1` for those shapes: numbers increment, `undefined`
gives NaN, `null` coerces to 0. -/
def jsAddOne : JSVal → JSVal
  | .vnum n => .vnum (n + 1)
  | .vnull => .vnum 1
  | .vstr s => .vstr (s ++ "1")
  | .vfn _ src => .vstr (src ++ "1")
  | .vundef => .vnan
  | .vnan => .vnan

/-- The body of `getLastMessageId` (macros.js 173-190) over the messages
enumerated from the end: a message being swiped is skipped when requested,
then the first message passing the filter yields its index. -/
def lastMessageIdFrom (excludeSwipeInProgress : Bool)
    (filter : Option (ChatMessage → Bool)) : List (Nat × ChatMessage) → Option Nat
  | [] => none
  | (i, m) :: rest =>
    if excludeSwipeInProgress && m.swipes.isSome
        && jsGE m.swipe_id (m.swipes.getD []).length then
      lastMessageIdFrom excludeSwipeInProgress filter rest
    else if (match filter with | none => true | some f => f m) then some i
    else lastMessageIdFrom excludeSwipeInProgress filter rest

/-- `getLastMessageId` (macros.js 173-190). -/
def getLastMessageId (excludeSwipeInProgress : Bool)
    (filter : Option (ChatMessage → Bool)) (chat : List ChatMessage) : Option Nat :=
  lastMessageIdFrom excludeSwipeInProgress filter chat.enum.reverse

/-- `chat[mid]?.mes ?? ''` with `mid` possibly null. -/
def messageTextAt (chat : List ChatMessage) (mid : Option Nat) : String :=
  match mid.bind (fun i => chat.get? i) with
  | some m => m.mes
  | none => ""

/-- `getLastMessage` (macros.js 212-215). -/
def getLastMessage (chat : List ChatMessage) : String :=
  messageTextAt chat (getLastMessageId true none chat)

/-- `getLastUserMessage` (macros.js 222-225). -/
def getLastUserMessage (chat : List ChatMessage) : String :=
  messageTextAt chat
    (getLastMessageId true (some (fun m => m.is_user && !m.is_system)) chat)

/-- `getLastCharMessage` (macros.js 232-235). -/
def getLastCharMessage (chat : List ChatMessage) : String :=
  messageTextAt chat
    (getLastMessageId true (some (fun m => !m.is_user && !m.is_system)) chat)

/-- `getLastSwipeId` (macros.js 242-247): `chat[mid]?.swipes?.length`. -/
def getLastSwipeId (chat : List ChatMessage) : Option Nat :=
  ((getLastMessageId false none chat).bind (fun i => chat.get? i)).bind
    (fun m => m.swipes.map (fun l => l.length))

/-- `getCurrentSwipeId` (macros.js 254-259): reads `chat[mid]?.swipe_id`
(`undefined` when the chat is empty or the field is absent) and returns
`swipeId !== null ? swipeId + 1 : null` — so an `undefined` swipe id passes
the strict null test and `undefined + 1` produces NaN. -/
def getCurrentSwipeId (chat : List ChatMessage) : JSVal :=
  let mid := getLastMessageId false none chat
  let swipeId : JSVal :=
    match mid.bind (fun i => chat.get? i) with
    | some m => m.swipe_id
    | none => .vundef
  match swipeId with
  | .vnull => .vnull
  | v => jsAddOne v

/-- JavaScript `x ?? y`. -/
def jsNullish (a b : JSVal) : JSVal :=
  match a with
  | .vundef => b
  | .vnull => b
  | v => v

/-- `String(x ?? '')` as the swipe-id macro uses it. -/
def strOfNullish (v : JSVal) : String := jsToString (jsNullish v (.vstr ""))

/-- `String(x ?? '')` for an optional number. -/
def optNatStr : Option Nat → String
  | some n => toString n
  | none => ""

/-- The backward scan of `getTimeSinceLastMessage` (macros.js 295-308) over
the reversed chat: system messages are skipped, a user message is taken only
after some other non-system message has been seen. -/
def timeSinceScan (takeNext : Bool) : List ChatMessage → Option ChatMessage
  | [] => none
  | m :: rest =>
    if m.is_system then timeSinceScan takeNext rest
    else if m.is_user && takeNext then some m
    else timeSinceScan true rest

/-- `getTimeSinceLastMessage` (macros.js 288-318), with the moment duration
humanization as the external collaborator `humanizeSince` applied to the
found message's send date. A missing or falsy send date yields "just now". -/
def getTimeSinceLastMessage (chat : List ChatMessage)
    (humanizeSince : String → String) : String :=
  match chat with
  | [] => "just now"
  | _ =>
    match timeSinceScan false chat.reverse with
    | some m =>
      match m.send_date with
      | some d => if d = "" then "just now" else humanizeSince d
      | none => "just now"
    | none => "just now"

/-- The external collaborators and ambient state of one evaluation call:
chat contents and metadata, identifier of the current chat, the hash and
seeded-RNG utilities, the entropy and dice draw streams, the opaque
instruct-mode and user-variable passes, DOM state, the generated nonce, and
the moment formatting results. -/
structure Externals where
  chat : List ChatMessage := []
  chatMetadataHash : Option Int := none
  mainChat : Option String := none
  currentChatId : String := ""
  stringHash : String → Int := fun _ => 0
  seededRng : Int → RngFloat := fun _ => ⟨0, 1⟩
  entropy : Nat → RngFloat := fun _ => ⟨0, 1⟩
  dice : Nat → Nat → Nat := fun _ _ => 1
  instructPass : String → EnvObject → (String → String) → String := fun c _ _ => c
  variablePass : String → (String → String) → String := fun c _ => c
  sendTextarea : String := ""
  maxContextSize : Nat := 0
  firstIncluded : Option Nat := none
  nonce : String := ""
  timeLT : String := ""
  timeLL : String := ""
  weekdayName : String := ""
  isoTimeStr : String := ""
  isoDateStr : String := ""
  dtFormat : String → String := fun _ => ""
  timeUTC : Int → String := fun _ => ""
  humanizeSince : String → String := fun _ => ""
  timeDiffHumanize : String → String → String := fun _ _ => ""

/-- `getChatIdHash` (macros.js 148-161): the cached hash from the chat
metadata when it is truthy, else the hash of the explicit main-chat id or the
current chat id. (The write-back to the metadata caches the same value.) -/
def getChatIdHash (P : Externals) : Int :=
  match P.chatMetadataHash with
  | some h =>
    if h = 0 then P.stringHash (P.mainChat.getD P.currentChatId) else h
  | none => P.stringHash (P.mainChat.getD P.currentChatId)

/-- `pickReplace` (macros.js 340-368), reading its ambient imports from the
externals: the chat-id hash, the string hash and the seeded generator. -/
def pickReplace (P : Externals) (input rawContent : String)
    (emptyListPlaceholder : JSVal) (varEscape : String → String) : String :=
  pickCore P.stringHash P.seededRng (getChatIdHash P) input rawContent
    emptyListPlaceholder varEscape

/-- `typeof v === 'function' ? v() : v` as the legacy tag substitution calls
an environment value (with no argument). -/
def resolveNoArg : JSVal → JSVal
  | .vfn f _ => .vstr (f "")
  | v => v

/-- The replacement value of one legacy angle-bracket tag (macros.js
429-433): the environment entry, invoked if it is a function, escaped. -/
def legacyTagValue (env : EnvObject) (key : String) (esc : String → String) :
    String :=
  esc (jsToString (resolveNoArg ((objGet env key).getD .vundef)))

/-- The legacy non-macro substitutions (macros.js 429-433): `<USER>`,
`<BOT>`, `<CHAR>`, `<CHARIFNOTGROUP>`, `<GROUP>`, case-insensitively. -/
def legacyReplace (env : EnvObject) (content : String) (esc : String → String) :
    String :=
  let c := scanReplace (ciFixedMatch "<user>".data (legacyTagValue env "user" esc)) content
  let c := scanReplace (ciFixedMatch "<bot>".data (legacyTagValue env "char" esc)) c
  let c := scanReplace (ciFixedMatch "<char>".data (legacyTagValue env "char" esc)) c
  let c := scanReplace (ciFixedMatch "<charifnotgroup>".data (legacyTagValue env "group" esc)) c
  let c := scanReplace (ciFixedMatch "<group>".data (legacyTagValue env "group" esc)) c
  c

/-- One iteration of the environment substitution loop (macros.js 453-461):
every case-insensitive occurrence of the braced key is replaced by the
value — invoked with the nonce if it is a function — sanitized and escaped. -/
def envSubstOne (nonce : String) (esc : String → String) (content : String)
    (kv : String × JSVal) : String :=
  scanReplace
    (ciFixedMatch ('{' :: '{' :: kv.1.data ++ ['}', '}'])
      (esc (sanitizeMacroValue
        (match kv.2 with
         | .vfn f _ => .vstr (f nonce)
         | v => v))))
    content

/-- The environment substitution loop over all own keys in insertion order. -/
def envLoop (env : EnvObject) (nonce : String) (esc : String → String)
    (content : String) : String :=
  env.foldl (envSubstOne nonce esc) content

/-- The passes of `evaluateMacros` between the short-circuit test and the
final pick pass (macros.js 440-491), in source order. The escape function is
forwarded exactly as the source spells each call: in particular
`diceRollReplace` and `randomReplace` receive it in their placeholder
parameter, leaving their own escape parameter at its identity default. -/
def corePasses (P : Externals) (registry : EnvObject) (env : EnvObject)
    (esc : String → String) (escSrc : String) (content : String) : String :=
  let c := diceRollReplace P.dice content (.vfn esc escSrc) (fun x => x)
  let c := P.instructPass c env esc
  let c := P.variablePass c esc
  let c := scanReplace (ciFixedMatch "{{newline}}".data (esc "\n")) c
  let c := scanReplace matchTrimFn c
  let c := scanReplace (ciFixedMatch "{{noop}}".data "") c
  let c := scanReplace (ciFixedMatch "{{input}}".data (esc P.sendTextarea)) c
  let env2 := populateEnv env registry
  let c := envLoop env2 P.nonce esc c
  let c := scanReplace (ciFixedMatch "{{maxPrompt}}".data (esc (toString P.maxContextSize))) c
  let c := scanReplace (ciFixedMatch "{{lastMessage}}".data (esc (getLastMessage P.chat))) c
  let c := scanReplace (ciFixedMatch "{{lastMessageId}}".data
    (esc (optNatStr (getLastMessageId true none P.chat)))) c
  let c := scanReplace (ciFixedMatch "{{lastUserMessage}}".data (esc (getLastUserMessage P.chat))) c
  let c := scanReplace (ciFixedMatch "{{lastCharMessage}}".data (esc (getLastCharMessage P.chat))) c
  let c := scanReplace (ciFixedMatch "{{firstIncludedMessageId}}".data
    (esc (optNatStr P.firstIncluded))) c
  let c := scanReplace (ciFixedMatch "{{lastSwipeId}}".data
    (esc (optNatStr (getLastSwipeId P.chat)))) c
  let c := scanReplace (ciFixedMatch "{{currentSwipeId}}".data
    (esc (strOfNullish (getCurrentSwipeId P.chat)))) c
  let c := scanReplace (matchReverseFn esc) c
  let c := scanReplace matchCommentFn c
  let c := scanReplace (ciFixedMatch "{{time}}".data (esc P.timeLT)) c
  let c := scanReplace (ciFixedMatch "{{date}}".data (esc P.timeLL)) c
  let c := scanReplace (ciFixedMatch "{{weekday}}".data (esc P.weekdayName)) c
  let c := scanReplace (ciFixedMatch "{{isotime}}".data (esc P.isoTimeStr)) c
  let c := scanReplace (ciFixedMatch "{{isodate}}".data (esc P.isoDateStr)) c
  let c := scanReplace (matchDtFormatFn esc P.dtFormat) c
  let c := scanReplace (ciFixedMatch "{{idle_duration}}".data
    (getTimeSinceLastMessage P.chat P.humanizeSince)) c
  let c := scanReplace (matchTimeUTCFn esc P.timeUTC) c
  let c := timeDiffReplace P.timeDiffHumanize c esc
  let c := bannedWordsReplace c
  let c := randomReplace P.entropy c (.vfn esc escSrc) (fun x => x)
  c

/-- `evaluateMacros` (macros.js 421-494): empty content returns empty; the
original content is preserved as `rawContent`; the legacy angle-bracket tags
are substituted; text without a placeholder opener is returned as-is; the
remaining passes run in order, ending with the content-seeded pick pass over
the evolved text and the original raw content. As in the source, the pick
pass receives the escape function in its placeholder parameter slot. -/
def evaluateMacros (P : Externals) (registry : EnvObject) (content : String)
    (env : EnvObject) (esc : String → String) (escSrc : String) : String :=
  if content = "" then ""
  else
    let rawContent := content
    let c1 := legacyReplace env content esc
    if containsSeq ['{', '{'] c1.data then
      pickReplace P (corePasses P registry env esc escSrc c1) rawContent
        (.vfn esc escSrc) (fun x => x)
    else c1

/-- The combined seed strings the pick pass builds during one `evaluateMacros`
call: the pick scan runs over the text produced by all earlier passes, while
the hashed raw content is the original input. -/
def evaluateMacrosPickSeeds (P : Externals) (registry : EnvObject)
    (content : String) (env : EnvObject) (esc : String → String)
    (escSrc : String) : List String :=
  if content = "" then []
  else
    let c1 := legacyReplace env content esc
    if containsSeq ['{', '{'] c1.data then
      pickSeeds P.stringHash (getChatIdHash P) content
        (corePasses P registry env esc escSrc c1)
    else []

/-- Modelled from the claim's wording (spec §3, §4.5): the per-match pick
seed as the specification states it, with the match offset measured in the
ORIGINAL raw content. Compared against `pickSeeds`, which the code computes
over the text at pick time. -/
def pickSeedsPerSpec (stringHash : String → Int) (chatIdHash : Int)
    (rawContent : String) : List String :=
  (scanCollect (matchListDirective "pick".data) rawContent).map
    (fun p => seedString chatIdHash (stringHash rawContent) p.1)

/-- A concrete instantiation of the external collaborators used by the
concrete-input theorems: empty chat, a cached chat-id hash of 7, trivial
string hash, and generators that always return one half. -/
def P0 : Externals :=
  { chatMetadataHash := some 7
    seededRng := fun _ => ⟨1, 2⟩
    entropy := fun _ => ⟨1, 2⟩
    nonce := "nonce" }

/-- Rebuilding a string from its characters with nothing appended gives it
back. -/
theorem strMk_append_nil (s : String) : String.mk (s.data ++ []) = s := by
  cases s with
  | mk l => simp

/-- JavaScript split on a single character never yields an empty array. -/
theorem splitChar_ne_nil (sep : Char) : ∀ s, splitChar sep s ≠ []
  | [] => by simp [splitChar]
  | c :: rest => by
    simp only [splitChar]
    split
    · simp
    · cases h : splitChar sep rest <;> simp

/-- JavaScript split on the double colon never yields an empty array. -/
theorem split2colon_ne_nil : ∀ s, split2colon s ≠ []
  | [] => by simp [split2colon]
  | [c] => by simp [split2colon]
  | c1 :: c2 :: rest => by
    simp only [split2colon]
    split
    · simp
    · cases h : split2colon (c2 :: rest) <;> simp

/-- The list parsing of the random and pick replacers always yields at least
one item. -/
theorem parseList_ne_nil (s : String) : (parseList s).isEmpty = false := by
  rw [parseList]
  split
  · simp [List.isEmpty_iff, List.map_eq_nil_iff, split2colon_ne_nil]
  · simp [List.isEmpty_iff, List.map_eq_nil_iff, splitChar_ne_nil]

/-- Deleting an absent key leaves the object unchanged. -/
theorem objDel_of_objGet_none (m : EnvObject) (k : String)
    (h : objGet m k = none) : objDel m k = m := by
  induction m with
  | nil => rfl
  | cons kv rest ih =>
    obtain ⟨k0, v0⟩ := kv
    simp only [objGet] at h
    simp only [objDel]
    split_ifs with hk
    · rw [if_pos hk] at h; simp at h
    · rw [if_neg hk] at h; rw [ih h]

/-- Setting a key makes it resolve to the new value. -/
theorem objGet_objSet_self (e : EnvObject) (k : String) (v : JSVal) :
    objGet (objSet e k v) k = some v := by
  induction e with
  | nil => simp [objSet, objGet]
  | cons kv rest ih =>
    obtain ⟨k0, v0⟩ := kv
    simp only [objSet]
    split_ifs with hk
    · simp [objGet, hk]
    · simp [objGet, hk, ih]

/-- Setting a different key leaves a lookup unchanged. -/
theorem objGet_objSet_ne (e : EnvObject) (k k2 : String) (v : JSVal)
    (h : k2 ≠ k) : objGet (objSet e k2 v) k = objGet e k := by
  induction e with
  | nil => simp [objSet, objGet, h]
  | cons kv rest ih =>
    obtain ⟨k0, v0⟩ := kv
    simp only [objSet]
    split_ifs with hk
    · have hne : ¬(k0 = k) := by rw [hk]; exact h
      simp [objGet, hne]
    · simp [objGet, ih]

/-- Folding writes for other keys over an object leaves a lookup unchanged. -/
theorem objGet_foldl_not_mem (ms : List (String × JSVal)) (e : EnvObject)
    (k : String) (h : k ∉ ms.map Prod.fst) :
    objGet (ms.foldl (fun a kv => objSet a kv.1 kv.2) e) k = objGet e k := by
  induction ms generalizing e with
  | nil => rfl
  | cons kv rest ih =>
    obtain ⟨k0, v0⟩ := kv
    simp only [List.map_cons, List.mem_cons, not_or] at h
    simp only [List.foldl_cons]
    rw [ih _ h.2, objGet_objSet_ne _ _ _ _ (fun he => h.1 he.symm)]

/-- The registry merge resolves every registered name (registry keys are
distinct, coming from a Map) to its registered value, whatever the caller
environment held there before. -/
theorem objGet_populateEnv (macros : List (String × JSVal)) (env : EnvObject)
    (k : String) (v : JSVal) (hnd : (macros.map Prod.fst).Nodup)
    (hv : objGet macros k = some v) :
    objGet (populateEnv env macros) k = some v := by
  induction macros generalizing env with
  | nil => simp [objGet] at hv
  | cons kv rest ih =>
    obtain ⟨k0, v0⟩ := kv
    simp only [List.map_cons, List.nodup_cons] at hnd
    simp only [objGet] at hv
    simp only [populateEnv, List.foldl_cons]
    by_cases hk : k0 = k
    · rw [if_pos hk] at hv
      subst hk
      have := objGet_foldl_not_mem rest (objSet env k0 v0) k0 hnd.1
      rw [this, objGet_objSet_self]
      exact hv
    · rw [if_neg hk] at hv
      have := ih (objSet env k0 v0) hnd.2 hv
      simpa [populateEnv] using this

/-- C1: the pipeline does NOT apply the caller-supplied escaping function to
entropy-pick, deterministic-pick or dice-roll substitutions: `evaluateMacros`
passes the escape function in the placeholder parameter slot of
`randomReplace`, `pickReplace` and `diceRollReplace`, leaving their own
escape parameter at its identity default. Evaluating each directive with the
appending escape function still yields the bare substituted value ("a", "a",
"1"), not the escaped one. -/
theorem c1_substitutions_unescaped :
    evaluateMacros P0 [] "{{random::a}}" [] (fun s => s ++ "!") "s => s + 1" = "a"
    ∧ evaluateMacros P0 [] "{{pick::a}}" [] (fun s => s ++ "!") "s => s + 1" = "a"
    ∧ evaluateMacros P0 [] "{{roll:1d1}}" [] (fun s => s ++ "!") "s => s + 1" = "1" := by
  refine ⟨by decide, by decide, by decide⟩

/-- C2 counterexample: the seed of a pick is NOT built from the match offset
in the original raw content. For `"{{noop}}{{pick::a::b}}"` the noop pass
removes eight characters before the pick pass runs, so the code builds the
seed string "7-0-0" (offset 0 in the evolved text) while the claim's formula
prescribes "7-0-8" (offset 8 in the original content). -/
theorem c2_counterexample :
    evaluateMacrosPickSeeds P0 [] "{{noop}}{{pick::a::b}}" [] (fun x => x) "x => x"
      = ["7-0-0"]
    ∧ pickSeedsPerSpec P0.stringHash (getChatIdHash P0) "{{noop}}{{pick::a::b}}"
      = ["7-0-8"]
    ∧ ("7-0-0" : String) ≠ "7-0-8" := by
  refine ⟨by decide, by decide, by decide⟩

/-- C2 amended: the per-match pick seed is the hash of
`chatIdHash-hash(rawContent)-offset` where the offset is the match position
in the text the pick pass scans; and the pick outcome depends on the chat
only through the string hash, the seeded generator and the chat-id hash, so
identical chat-id hash, raw content and pick-pass input text give identical
outcomes across reloads and renames. -/
theorem c2_pick_seed_determinism :
    (∀ (hash : String → Int) (cid : Int) (raw input : String),
        pickSeeds hash cid raw input
          = (pickMatchOffsets input).map (fun o => seedString cid (hash raw) o))
    ∧ (∀ (P Q : Externals) (input raw : String) (ph : JSVal)
        (esc : String → String),
        P.stringHash = Q.stringHash → P.seededRng = Q.seededRng →
        getChatIdHash P = getChatIdHash Q →
        pickReplace P input raw ph esc = pickReplace Q input raw ph esc) := by
  constructor
  · intro hash cid raw input
    simp [pickSeeds, pickMatchOffsets, List.map_map]
  · intro P Q input raw ph esc h1 h2 h3
    simp only [pickReplace, pickCore, h1, h2, h3]

/-- C2 witness: the same pick in the same raw text gives the same outcome in
two external states that differ in chat contents and current chat id but
share the cached chat-id hash (a rename or reload). -/
theorem c2_pick_seed_determinism_witness :
    pickReplace P0 "{{pick::x::y}}" "{{pick::x::y}}" (JSVal.vstr "") (fun x => x)
      = pickReplace { P0 with currentChatId := "renamed", chat := [{ mes := "hello" }] }
          "{{pick::x::y}}" "{{pick::x::y}}" (JSVal.vstr "") (fun x => x) :=
  c2_pick_seed_determinism.2 _ _ _ _ _ _ rfl rfl rfl

/-- C3 counterexample: the universal claim fails for a registered name that
collides with an earlier built-in pass: with "noop" registered as "X" and
present in the caller env as "A", evaluating `"{{noop}}"` yields "" — the
noop-stripping pass consumes the placeholder before the environment loop
runs, so the registered value is never substituted. -/
theorem c3_counterexample :
    registerMacro [] (JSVal.vstr "noop") (JSVal.vstr "X")
      = Except.ok [("noop", JSVal.vstr "X")]
    ∧ evaluateMacros P0 [("noop", JSVal.vstr "X")] "{{noop}}"
        [("noop", JSVal.vstr "A")] (fun x => x) "x => x" = ""
    ∧ ("" : String) ≠ "X" := by
  refine ⟨rfl, by decide, by decide⟩

/-- C3 amended: the registry merge itself is universal — for every caller
environment and every registry (whose keys, coming from a Map, are distinct),
every registered name maps to the registered value in the merged environment,
so the caller entry is unconditionally overwritten; and a placeholder that
survives to the environment loop is substituted with the registered value, as
in the claim's own instance: env {foo: "A"} with registered {foo: "B"}
evaluates `"{{foo}}"` to "B". -/
theorem c3_registry_precedence :
    (∀ (env macros : EnvObject) (k : String) (v : JSVal),
        (macros.map Prod.fst).Nodup → objGet macros k = some v →
        objGet (populateEnv env macros) k = some v)
    ∧ evaluateMacros P0 [("foo", JSVal.vstr "B")] "{{foo}}"
        [("foo", JSVal.vstr "A")] (fun x => x) "x => x" = "B" := by
  refine ⟨?_, by decide⟩
  intro env macros k v hnd hv
  exact objGet_populateEnv macros env k v hnd hv

/-- C3 witness: the universal overwrite at the claim's own instance — after
merging a registry binding "foo" to "B" over a caller env binding it to "A",
"foo" resolves to "B". -/
theorem c3_registry_precedence_witness :
    objGet (populateEnv [("foo", JSVal.vstr "A")] [("foo", JSVal.vstr "B")]) "foo"
      = some (JSVal.vstr "B") :=
  c3_registry_precedence.1 [("foo", JSVal.vstr "A")] [("foo", JSVal.vstr "B")]
    "foo" (JSVal.vstr "B") (by simp) rfl

/-- C4: an invalid roll formula does not yield the empty placeholder: the
pipeline passes the escape function in the placeholder parameter, so
`"{{roll:notaformula}}"` is replaced by the string coercion of that function
(its source text, here "x => x"), which is never the empty string. -/
theorem c4_invalid_roll_inserts_escape_source :
    evaluateMacros P0 [] "{{roll:notaformula}}" [] (fun x => x) "x => x" = "x => x"
    ∧ ("x => x" : String) ≠ "" := by
  refine ⟨by decide, by decide⟩

/-- C5 counterexample: a name with the placeholder braces strictly inside it
is accepted by `registerMacro`, although it contains "{{"; only a leading
"{{" or a trailing "}}" is rejected. -/
theorem c5_counterexample :
    registerMacro [] (JSVal.vstr "a\x7b\x7bb") (JSVal.vstr "v")
      = Except.ok [("a\x7b\x7bb", JSVal.vstr "v")]
    ∧ containsSeq ['{', '{'] "a\x7b\x7bb".data = true := ⟨rfl, rfl⟩

/-- C5 amended: `registerMacro` fails exactly when the key is not a string,
trims to the empty string, or the trimmed key starts with the opening braces
or ends with the closing braces; for every other key (and any value) the
registration succeeds. -/
theorem c5_register_key_rule (m : EnvObject) (key value : JSVal) :
    exceptOk (registerMacro m key value) = validRegisterKey key := by
  cases key <;> try rfl
  case vstr s =>
    simp only [registerMacro, validRegisterKey]
    split_ifs with h1 h2
    · simp_all [exceptOk]
    · rw [Bool.or_eq_true] at h2
      rcases h2 with hA | hB <;> simp_all [exceptOk]
    · simp only [Bool.or_eq_true, not_or, Bool.not_eq_true] at h2
      simp_all [exceptOk]

/-- C6 counterexample: `unregisterMacro` performs no placeholder-brace check:
unregistering the name "{{x}}" (invalid for `registerMacro`) succeeds as a
no-op instead of failing with InvalidKey. -/
theorem c6_counterexample :
    unregisterMacro [] (JSVal.vstr "{{x}}") = Except.ok ([] : EnvObject)
    ∧ validRegisterKey (JSVal.vstr "{{x}}") = false := ⟨rfl, rfl⟩

/-- C6 amended: `unregisterMacro` fails exactly for non-string keys and keys
that trim to the empty string (no brace rule), and on a never-registered name
it succeeds leaving the registry unchanged. -/
theorem c6_unregister_rule :
    (∀ (m : EnvObject) (key : JSVal),
        exceptOk (unregisterMacro m key) = validUnregisterKey key)
    ∧ (∀ (m : EnvObject) (s : String), objGet m (strTrim s) = none →
        validUnregisterKey (JSVal.vstr s) = true →
        unregisterMacro m (JSVal.vstr s) = Except.ok m) := by
  constructor
  · intro m key
    cases key <;> try rfl
    case vstr s =>
      simp only [unregisterMacro, validUnregisterKey]
      split_ifs with h1 <;> simp_all [exceptOk]
  · intro m s habsent hvalid
    simp only [validUnregisterKey, Bool.not_eq_true'] at hvalid
    simp only [unregisterMacro]
    rw [if_neg (by simpa using hvalid)]
    rw [objDel_of_objGet_none m (strTrim s) habsent]

/-- C6 witness: unregistering the never-registered name "b" from a registry
holding only "a" succeeds and returns the registry unchanged. -/
theorem c6_unregister_rule_witness :
    unregisterMacro [("a", JSVal.vstr "1")] (JSVal.vstr "b")
      = Except.ok [("a", JSVal.vstr "1")] :=
  c6_unregister_rule.2 [("a", JSVal.vstr "1")] "b" rfl rfl

/-- C7: a digits-only roll argument is normalized to a single N-sided die:
`"{{roll:20}}"` behaves exactly as `"{{roll:1d20}}"` and yields a decimal
string in 1..20 for any die stream within the faces, and `"{{roll:2d6}}"`
yields a decimal string between 2 and 12 inclusive. -/
theorem c7_roll_digits_normalized (d1 d2 : Nat → Nat) (esc : String → String)
    (h1 : ∀ i, 1 ≤ d1 i ∧ d1 i ≤ 20) (h2 : ∀ i, 1 ≤ d2 i ∧ d2 i ≤ 6) :
    (diceRollReplace (fun _ => d1) "{{roll:20}}" (JSVal.vstr "") esc
       = diceRollReplace (fun _ => d1) "{{roll:1d20}}" (JSVal.vstr "") esc)
    ∧ (∃ t1 : Int, diceRollReplace (fun _ => d1) "{{roll:20}}" (JSVal.vstr "") esc
          = esc (toString t1) ∧ 1 ≤ t1 ∧ t1 ≤ 20)
    ∧ (∃ t2 : Int, diceRollReplace (fun _ => d2) "{{roll:2d6}}" (JSVal.vstr "") esc
          = esc (toString t2) ∧ 2 ≤ t2 ∧ t2 ≤ 12) := by
  refine ⟨rfl, ⟨((d1 0 : Nat) : Int), ?_, ?_, ?_⟩,
    ⟨((d2 0 + d2 1 : Nat) : Int), ?_, ?_, ?_⟩⟩
  · have e1 : diceRollReplace (fun _ => d1) "{{roll:20}}" (JSVal.vstr "") esc
        = String.mk ((esc (toString ((d1 0 : Nat) : Int))).data ++ []) := rfl
    rw [e1, strMk_append_nil]
  · have := (h1 0).1; omega
  · have := (h1 0).2; omega
  · have e2 : diceRollReplace (fun _ => d2) "{{roll:2d6}}" (JSVal.vstr "") esc
        = String.mk ((esc (toString ((d2 0 + d2 1 : Nat) : Int))).data ++ []) := rfl
    rw [e2, strMk_append_nil]
  · have := (h2 0).1; have := (h2 1).1; omega
  · have := (h2 0).2; have := (h2 1).2; omega

/-- C7 witness: with every die showing 5, `"{{roll:20}}"` and
`"{{roll:1d20}}"` substitute identically. -/
theorem c7_roll_digits_normalized_witness :
    diceRollReplace (fun _ _ => 5) "{{roll:20}}" (JSVal.vstr "") (fun x => x)
      = diceRollReplace (fun _ _ => 5) "{{roll:1d20}}" (JSVal.vstr "") (fun x => x) :=
  (c7_roll_digits_normalized (fun _ => 5) (fun _ => 3) (fun x => x)
    (fun _ => ⟨by norm_num, by norm_num⟩) (fun _ => ⟨by norm_num, by norm_num⟩)).1

/-- C8: when the text after the legacy angle-bracket substitutions contains
no placeholder opener, `evaluateMacros` returns exactly that text, skipping
every remaining pass. -/
theorem c8_short_circuit (P : Externals) (registry : EnvObject) (content : String)
    (env : EnvObject) (esc : String → String) (escSrc : String)
    (h : containsSeq ['{', '{'] (legacyReplace env content esc).data = false) :
    evaluateMacros P registry content env esc escSrc
      = legacyReplace env content esc := by
  by_cases hc : content = ""
  · subst hc
    have hl : legacyReplace env "" esc = "" := rfl
    simp [evaluateMacros, hl]
  · simp only [evaluateMacros, if_neg hc]
    simp [h]

/-- C8 witness: a text whose only pattern is a legacy tag is returned with
just that tag substituted. -/
theorem c8_short_circuit_witness :
    evaluateMacros P0 [] "hi <USER>." [("user", JSVal.vstr "Bob")]
        (fun x => x) "x => x"
      = legacyReplace [("user", JSVal.vstr "Bob")] "hi <USER>." (fun x => x) :=
  c8_short_circuit P0 [] "hi <USER>." [("user", JSVal.vstr "Bob")]
    (fun x => x) "x => x" (by decide)

/-- C9: with an empty chat the current-swipe-index macro is replaced by the
string "NaN", not by the empty string: the undefined swipe id passes the
strict `!== null` test and `undefined + 1` is NaN. -/
theorem c9_current_swipe_empty_chat_nan :
    evaluateMacros P0 [] "{{currentSwipeId}}" [] (fun x => x) "x => x" = "NaN"
    ∧ getCurrentSwipeId [] = JSVal.vnan := by
  refine ⟨by decide, rfl⟩

/-- C10: list parsing in the random and pick replacers always yields at least
one item for every captured list string, so the empty-list placeholder branch
is unreachable. -/
theorem c10_pick_random_list_never_empty (listString : String) :
    (parseList listString).isEmpty = false ∧ parseList listString ≠ [] := by
  refine ⟨parseList_ne_nil listString, ?_⟩
  have h := parseList_ne_nil listString
  simpa [List.isEmpty_iff] using h
